import Mathlib

/-!
Shallow embedding of `src/blacklist.rs`: the `BlacklistReputation` negotiator
plugin.  The plugin keeps a blacklist of node identities together with a map of
tracked agreements behind a single mutex; machine time instants are modelled as
natural numbers, and the fallible Rust functions return `Except`.
-/

/-- Opaque identity of a negotiation counterparty (`NodeId`). -/
abbrev NodeId := Nat

/-- A tracked agreement record (`TrackedAgreement` in the source).  `signed`
and `terminated` are timestamps, modelled as natural numbers. -/
structure TrackedAgreement where
  id : String
  node : NodeId
  signed : Nat
  terminated : Option Nat
deriving DecidableEq

/-- The shared state guarded by the mutex (`BlacklistState`): the blacklist
(an appendable `Vec<NodeId>`) and the map from agreement id to tracked
agreement (`HashMap<String, TrackedAgreement>`, modelled as an association
list on which the operations keep at most one binding per key). -/
structure BlacklistState where
  blacklist : List NodeId
  agreements : List (String × TrackedAgreement)
deriving DecidableEq

/-- Model of the `HashMap` lookup (`get` / `get_mut`): the value bound to `k`. -/
def lookupA (l : List (String × TrackedAgreement)) (k : String) : Option TrackedAgreement :=
  (l.find? (fun p => p.1 == k)).map (fun p => p.2)

/-- Model of the `HashMap` removal of the binding for `k`. -/
def eraseKey (l : List (String × TrackedAgreement)) (k : String) : List (String × TrackedAgreement) :=
  l.filter (fun p => !(p.1 == k))

/-- Model of `HashMap::insert`: the new binding replaces any binding at `k`. -/
def insertA (l : List (String × TrackedAgreement)) (k : String) (v : TrackedAgreement) :
    List (String × TrackedAgreement) :=
  (k, v) :: eraseKey l k

/-- How many bindings the map holds at key `k`. -/
def countKey (l : List (String × TrackedAgreement)) (k : String) : Nat :=
  (l.filter (fun p => p.1 == k)).length

/-- Configuration of the plugin (`BlacklistReputationsConfig`): the payment
timeout, a duration in model time units. -/
structure BlacklistReputationsConfig where
  payment_timeout : Nat
deriving DecidableEq

/-- The part of a `ProposalView` this component reads is the issuer identity;
the rest of the proposal document is opaque, abstracted as `content`. -/
structure ProposalView where
  issuer : NodeId
  content : Nat
deriving DecidableEq

/-- Opaque score value attached to a proposal. -/
abbrev Score := Nat

/-- Outcome of one negotiation step (`NegotiationResult`). -/
inductive NegotiationResult where
  | Ready (proposal : ProposalView) (score : Score)
  | Reject (reason : String) (is_final : Bool)
deriving DecidableEq

/-- `negotiate_step`: rejects (final) any issuer currently on the blacklist,
otherwise passes the offer proposal and score through unchanged.  The function
only reads the shared state; the model returns the post-call state alongside
the result to make that visible. -/
def negotiate_step (s : BlacklistState) (demand : ProposalView) (offer : ProposalView)
    (score : Score) : Except Unit (NegotiationResult × BlacklistState) :=
  if s.blacklist.contains demand.issuer then
    .ok (.Reject "Node is blacklisted due to not paying Invoices." true, s)
  else
    .ok (.Ready offer score, s)

theorem contains_iff_mem (l : List NodeId) (a : NodeId) : l.contains a = true ↔ a ∈ l := by
  simp [List.contains]

/-- C1: `negotiate_step` returns a final `Reject` exactly when the demand's
issuer is a member of the blacklist, and the shared state (blacklist and
tracked-agreement table) after the call is the state before the call. -/
theorem negotiate_step_rejects_iff_blacklisted (s : BlacklistState)
    (demand offer : ProposalView) (score : Score) :
    ∃ res : NegotiationResult,
      negotiate_step s demand offer score = .ok (res, s) ∧
      ((∃ reason, res = .Reject reason true) ↔ demand.issuer ∈ s.blacklist) := by
  by_cases h : demand.issuer ∈ s.blacklist
  · refine ⟨.Reject "Node is blacklisted due to not paying Invoices." true, ?_, ?_⟩
    · simp [negotiate_step, h]
    · exact ⟨fun _ => h, fun _ => ⟨_, rfl⟩⟩
  · refine ⟨.Ready offer score, ?_, ?_⟩
    · simp [negotiate_step, h]
    · constructor
      · rintro ⟨reason, hr⟩
        cases hr
      · intro hmem
        exact absurd hmem h

/-- C9: when the issuer is not blacklisted, `negotiate_step` returns `Ready`
carrying exactly the offer proposal and score it was given, and the state is
unchanged. -/
theorem negotiate_step_accept_passthrough (s : BlacklistState)
    (demand offer : ProposalView) (score : Score) (h : demand.issuer ∉ s.blacklist) :
    negotiate_step s demand offer score = .ok (.Ready offer score, s) := by
  simp [negotiate_step, h]

/-- Witness for C9 at a concrete state and proposal. -/
theorem negotiate_step_accept_passthrough_witness :
    negotiate_step ⟨[3], []⟩ ⟨5, 0⟩ ⟨9, 1⟩ 42 = .ok (.Ready ⟨9, 1⟩ 42, ⟨[3], []⟩) :=
  negotiate_step_accept_passthrough ⟨[3], []⟩ ⟨5, 0⟩ ⟨9, 1⟩ 42 (by decide)

/-- The view of an approved agreement this component reads (`AgreementView`):
its id, the requestor identity — whose extraction can fail, modelled by
`Option` — and the optional `/approved_date` field. -/
structure AgreementView where
  id : String
  requestor : Option NodeId
  approved_date : Option Nat
deriving DecidableEq

/-- `agreement.requestor_id()`, a fallible extraction of the requestor. -/
def AgreementView.requestor_id (a : AgreementView) : Except Unit NodeId :=
  match a.requestor with
  | some node => .ok node
  | none => .error ()

/-- `on_agreement_approved`: builds a `TrackedAgreement` (failing when the
requestor identity cannot be extracted; `signed` falls back to the current
time when `/approved_date` is missing) and inserts it under the agreement id.
The Rust method mutates `self` and returns `anyhow::Result<()>`; the model
returns the error flag together with the post-call state, so a failure after
a mutation would be visible.  The log call after the insertion extracts the
requestor id once more with `?`. -/
def on_agreement_approved (s : BlacklistState) (a : AgreementView) (now : Nat) :
    Except Unit Unit × BlacklistState :=
  match a.requestor_id with
  | .error e => (.error e, s)
  | .ok node =>
    let record : TrackedAgreement :=
      { id := a.id, node := node, signed := a.approved_date.getD now, terminated := none }
    let s' : BlacklistState := { s with agreements := insertA s.agreements a.id record }
    match a.requestor_id with
    | .error e => (.error e, s')
    | .ok _ => (.ok (), s')

/-- A deadline timer armed by `on_agreement_terminated`: the spawned task
sleeps until `fire_at` and then runs the deadline action for `agreement_id`.
`node` is the node id captured by the closure (used there only for logging). -/
structure ArmedTimer where
  agreement_id : String
  node : NodeId
  fire_at : Nat
deriving DecidableEq

/-- `on_agreement_terminated`: if the agreement is still tracked, record the
termination instant and arm one deadline timer at `now + payment_timeout`;
otherwise do nothing.  Always returns `Ok`. -/
def on_agreement_terminated (cfg : BlacklistReputationsConfig) (s : BlacklistState)
    (agreement_id : String) (now : Nat) :
    Except Unit (BlacklistState × Option ArmedTimer) :=
  match lookupA s.agreements agreement_id with
  | some record =>
    let deadline := now + cfg.payment_timeout
    let s' : BlacklistState :=
      { s with agreements :=
          insertA s.agreements agreement_id { record with terminated := some now } }
    .ok (s', some { agreement_id := agreement_id, node := record.node, fire_at := deadline })
  | none => .ok (s, none)

/-- The body of the spawned deadline task once its sleep ends (the closure in
`on_agreement_terminated`): remove the agreement from the map; if it was still
there, the invoice was not paid, so push the removed record's node onto the
blacklist. -/
def fireDeadline (s : BlacklistState) (agreement_id : String) : BlacklistState :=
  match lookupA s.agreements agreement_id with
  | some record =>
    { blacklist := s.blacklist ++ [record.node],
      agreements := eraseKey s.agreements agreement_id }
  | none => s

/-- Agreement events delivered after termination; `other` stands for every
variant the source's catch-all `_` arm ignores. -/
inductive AgreementEvent where
  | invoicePaid
  | invoiceRejected
  | other
deriving DecidableEq

/-- `on_agreement_event`: `InvoicePaid` stops tracking the agreement,
`InvoiceRejected` stops tracking it and blacklists the removed record's node,
anything else is ignored.  Always returns `Ok`. -/
def on_agreement_event (s : BlacklistState) (agreement_id : String)
    (event : AgreementEvent) : Except Unit BlacklistState :=
  match event with
  | .invoicePaid =>
    match lookupA s.agreements agreement_id with
    | some _ => .ok { s with agreements := eraseKey s.agreements agreement_id }
    | none => .ok s
  | .invoiceRejected =>
    match lookupA s.agreements agreement_id with
    | some record =>
      .ok { blacklist := s.blacklist ++ [record.node],
            agreements := eraseKey s.agreements agreement_id }
    | none => .ok s
  | .other => .ok s

theorem lookupA_eraseKey_self (l : List (String × TrackedAgreement)) (k : String) :
    lookupA (eraseKey l k) k = none := by
  simp [lookupA, eraseKey, List.find?_filter]

theorem eraseKey_of_lookupA_none {l : List (String × TrackedAgreement)} {k : String}
    (h : lookupA l k = none) : eraseKey l k = l := by
  induction l with
  | nil => rfl
  | cons p t ih =>
    by_cases hp : p.1 = k
    · exfalso
      simp [lookupA, List.find?, hp] at h
    · have hb : (p.1 == k) = false := by simp [hp]
      have ht : lookupA t k = none := by
        simpa [lookupA, List.find?, hb] using h
      simp [eraseKey, List.filter_cons, hb] at *
      exact ih ht

theorem lookupA_some_mem {l : List (String × TrackedAgreement)} {k : String}
    {r : TrackedAgreement} (h : lookupA l k = some r) : (k, r) ∈ l := by
  unfold lookupA at h
  cases hf : l.find? (fun p => p.1 == k) with
  | none => simp [hf] at h
  | some p =>
    have hp : p.1 = k := by simpa using List.find?_some hf
    have hm := List.mem_of_find?_eq_some hf
    simp [hf] at h
    obtain ⟨a, b⟩ := p
    cases hp
    cases h
    exact hm

theorem countKey_eraseKey (l : List (String × TrackedAgreement)) (k : String) :
    countKey (eraseKey l k) k = 0 := by
  simp [countKey, eraseKey, List.filter_filter]

theorem countKey_insertA (l : List (String × TrackedAgreement)) (k : String)
    (v : TrackedAgreement) : countKey (insertA l k v) k = 1 := by
  have h := countKey_eraseKey l k
  simp only [countKey] at h ⊢
  simp [insertA, List.filter_cons, h]

/-- C3: when the deferred deadline action fires: if the agreement is still
tracked, the action removes the entry and appends the removed record's node to
the blacklist exactly once; if the entry has already been removed, the action
leaves both the table and the blacklist unchanged (implicit cancellation). -/
theorem fireDeadline_spec (s : BlacklistState) (agreement_id : String) :
    (∀ r : TrackedAgreement, lookupA s.agreements agreement_id = some r →
      (fireDeadline s agreement_id).blacklist = s.blacklist ++ [r.node] ∧
      lookupA (fireDeadline s agreement_id).agreements agreement_id = none) ∧
    (lookupA s.agreements agreement_id = none → fireDeadline s agreement_id = s) := by
  constructor
  · intro r h
    constructor
    · simp [fireDeadline, h]
    · simp [fireDeadline, h, lookupA_eraseKey_self]
  · intro h
    simp [fireDeadline, h]

/-- Witness for C3: firing the deadline on a state that still tracks
agreement "a" blacklists node 7 and removes the entry. -/
theorem fireDeadline_spec_witness :
    (fireDeadline ⟨[], [("a", ⟨"a", 7, 0, none⟩)]⟩ "a").blacklist = [] ++ [7] ∧
    lookupA (fireDeadline ⟨[], [("a", ⟨"a", 7, 0, none⟩)]⟩ "a").agreements "a" = none :=
  (fireDeadline_spec ⟨[], [("a", ⟨"a", 7, 0, none⟩)]⟩ "a").1 ⟨"a", 7, 0, none⟩ rfl

/-- C4: for a tracked agreement, `InvoicePaid` removes the entry and leaves
the blacklist unchanged; `InvoiceRejected` removes the entry and appends its
node to the blacklist; any other event kind returns `Ok` and changes no
state.  The third conjunct records that the erased table no longer holds the
agreement id. -/
theorem on_agreement_event_spec (s : BlacklistState) (agreement_id : String)
    (r : TrackedAgreement) (h : lookupA s.agreements agreement_id = some r) :
    on_agreement_event s agreement_id .invoicePaid =
      .ok { blacklist := s.blacklist, agreements := eraseKey s.agreements agreement_id } ∧
    on_agreement_event s agreement_id .invoiceRejected =
      .ok { blacklist := s.blacklist ++ [r.node],
            agreements := eraseKey s.agreements agreement_id } ∧
    lookupA (eraseKey s.agreements agreement_id) agreement_id = none ∧
    on_agreement_event s agreement_id .other = .ok s := by
  refine ⟨?_, ?_, lookupA_eraseKey_self s.agreements agreement_id, ?_⟩
  · simp [on_agreement_event, h]
  · simp [on_agreement_event, h]
  · simp [on_agreement_event]

/-- Witness for C4 at a concrete state tracking agreement "a" for node 7. -/
theorem on_agreement_event_spec_witness :
    on_agreement_event ⟨[2], [("a", ⟨"a", 7, 0, none⟩)]⟩ "a" .invoicePaid =
      .ok { blacklist := [2], agreements := eraseKey [("a", ⟨"a", 7, 0, none⟩)] "a" } ∧
    on_agreement_event ⟨[2], [("a", ⟨"a", 7, 0, none⟩)]⟩ "a" .invoiceRejected =
      .ok { blacklist := [2] ++ [7], agreements := eraseKey [("a", ⟨"a", 7, 0, none⟩)] "a" } ∧
    lookupA (eraseKey [("a", ⟨"a", 7, 0, none⟩)] "a") "a" = none ∧
    on_agreement_event ⟨[2], [("a", ⟨"a", 7, 0, none⟩)]⟩ "a" .other =
      .ok ⟨[2], [("a", ⟨"a", 7, 0, none⟩)]⟩ :=
  on_agreement_event_spec ⟨[2], [("a", ⟨"a", 7, 0, none⟩)]⟩ "a" ⟨"a", 7, 0, none⟩ rfl

/-- C6: for an agreement id that is not tracked, the termination handler
returns `Ok`, arms no timer and leaves the state unchanged, and the
settlement-event handler returns `Ok` and leaves the state unchanged for
every event kind (in particular `InvoiceRejected` blacklists nobody). -/
theorem untracked_agreement_noop (cfg : BlacklistReputationsConfig) (s : BlacklistState)
    (agreement_id : String) (now : Nat)
    (h : lookupA s.agreements agreement_id = none) :
    on_agreement_terminated cfg s agreement_id now = .ok (s, none) ∧
    ∀ e : AgreementEvent, on_agreement_event s agreement_id e = .ok s := by
  constructor
  · simp [on_agreement_terminated, h]
  · intro e
    cases e <;> simp [on_agreement_event, h]

/-- Witness for C6: the untracked agreement "A2" is ignored by termination and
by a rejected-invoice event. -/
theorem untracked_agreement_noop_witness :
    on_agreement_terminated ⟨15⟩ ⟨[], []⟩ "A2" 0 = .ok (⟨[], []⟩, none) ∧
    on_agreement_event ⟨[], []⟩ "A2" .invoiceRejected = .ok ⟨[], []⟩ :=
  ⟨(untracked_agreement_noop ⟨15⟩ ⟨[], []⟩ "A2" 0 rfl).1,
   (untracked_agreement_noop ⟨15⟩ ⟨[], []⟩ "A2" 0 rfl).2 .invoiceRejected⟩

/-- C10: when extracting the requestor identity fails, `on_agreement_approved`
returns an error and the state — table and blacklist — is unchanged (no
partial insertion); when extraction succeeds it returns `Ok`, afterwards the
table holds exactly one entry for the agreement id, and the blacklist is
unchanged. -/
theorem on_agreement_approved_spec (s : BlacklistState) (a : AgreementView) (now : Nat) :
    (a.requestor = none → on_agreement_approved s a now = (.error (), s)) ∧
    (∀ node : NodeId, a.requestor = some node →
      ∃ s' : BlacklistState, on_agreement_approved s a now = (.ok (), s') ∧
        countKey s'.agreements a.id = 1 ∧ s'.blacklist = s.blacklist) := by
  constructor
  · intro h
    simp [on_agreement_approved, AgreementView.requestor_id, h]
  · intro node h
    refine ⟨⟨s.blacklist, insertA s.agreements a.id
        ⟨a.id, node, a.approved_date.getD now, none⟩⟩, ?_, ?_, rfl⟩
    · simp [on_agreement_approved, AgreementView.requestor_id, h]
    · exact countKey_insertA s.agreements a.id _

/-- Witness for C10: both branches at concrete agreement views. -/
theorem on_agreement_approved_spec_witness :
    on_agreement_approved ⟨[], []⟩ ⟨"b", none, none⟩ 0 = (.error (), ⟨[], []⟩) ∧
    ∃ s' : BlacklistState, on_agreement_approved ⟨[], []⟩ ⟨"a", some 4, none⟩ 0 = (.ok (), s') ∧
      countKey s'.agreements "a" = 1 ∧ s'.blacklist = [] :=
  ⟨(on_agreement_approved_spec ⟨[], []⟩ ⟨"b", none, none⟩ 0).1 rfl,
   (on_agreement_approved_spec ⟨[], []⟩ ⟨"a", some 4, none⟩ 0).2 4 rfl⟩

/-- The three resolvers that race to remove a tracked agreement: the
`InvoicePaid` handler, the `InvoiceRejected` handler, and the fired deadline
action. -/
inductive ResolveKind where
  | paid
  | rejected
  | deadline
deriving DecidableEq

/-- Effect of one resolver on the shared state (each handler returns `Ok`
unconditionally, so the error branch is dead). -/
def applyResolve (s : BlacklistState) (agreement_id : String) :
    ResolveKind → BlacklistState
  | .paid =>
    match on_agreement_event s agreement_id .invoicePaid with
    | .ok s' => s'
    | .error _ => s
  | .rejected =>
    match on_agreement_event s agreement_id .invoiceRejected with
    | .ok s' => s'
    | .error _ => s
  | .deadline => fireDeadline s agreement_id

theorem applyResolve_of_none {s : BlacklistState} {agreement_id : String}
    (h : lookupA s.agreements agreement_id = none) (k : ResolveKind) :
    applyResolve s agreement_id k = s := by
  cases k <;> simp [applyResolve, on_agreement_event, fireDeadline, h]

theorem lookupA_applyResolve (s : BlacklistState) (agreement_id : String)
    (k : ResolveKind) :
    lookupA (applyResolve s agreement_id k).agreements agreement_id = none := by
  cases hl : lookupA s.agreements agreement_id with
  | none => simp [applyResolve_of_none hl k, hl]
  | some r =>
    cases k <;>
      simp [applyResolve, on_agreement_event, fireDeadline, hl, lookupA_eraseKey_self]

theorem applyResolve_blacklist_le (s : BlacklistState) (agreement_id : String)
    (k : ResolveKind) :
    (applyResolve s agreement_id k).blacklist.length ≤ s.blacklist.length + 1 := by
  cases hl : lookupA s.agreements agreement_id with
  | none => simp [applyResolve_of_none hl k]
  | some r =>
    cases k <;>
      simp [applyResolve, on_agreement_event, fireDeadline, hl]

theorem foldl_applyResolve_of_none {s : BlacklistState} {agreement_id : String}
    (h : lookupA s.agreements agreement_id = none) (ks : List ResolveKind) :
    List.foldl (fun t k => applyResolve t agreement_id k) s ks = s := by
  induction ks with
  | nil => rfl
  | cons k ks ih =>
    simp only [List.foldl_cons, applyResolve_of_none h k]
    exact ih

/-- C2: between an insertion for a contract and the next insertion, whichever
of the three resolvers (paid handler, rejected handler, fired deadline) runs
first determines the whole effect: every later resolver for the same
agreement id is a no-op on the state, so the entry is removed at most once
and the blacklist grows by at most one entry on account of that contract. -/
theorem resolve_wins_once (s : BlacklistState) (agreement_id : String)
    (k : ResolveKind) (ks : List ResolveKind) :
    List.foldl (fun t k' => applyResolve t agreement_id k') s (k :: ks) =
      applyResolve s agreement_id k ∧
    (List.foldl (fun t k' => applyResolve t agreement_id k') s (k :: ks)).blacklist.length ≤
      s.blacklist.length + 1 := by
  have hfold : List.foldl (fun t k' => applyResolve t agreement_id k') s (k :: ks) =
      applyResolve s agreement_id k := by
    simp only [List.foldl_cons]
    exact foldl_applyResolve_of_none (lookupA_applyResolve s agreement_id k) ks
  exact ⟨hfold, hfold ▸ applyResolve_blacklist_le s agreement_id k⟩

/-- One external stimulus to the component: an approval (carrying the
agreement view and the call time), a termination (carrying the call time), a
settlement event, or the firing of a previously armed deadline timer. -/
inductive Op where
  | approve (view : AgreementView) (now : Nat)
  | terminate (id : String) (now : Nat)
  | agreementEvent (id : String) (event : AgreementEvent)
  | fire (id : String)
deriving DecidableEq

/-- The component state together with the armed deadline timers, identified by
the agreement id the spawned task captured. -/
structure SysState where
  comp : BlacklistState
  armed : List String
deriving DecidableEq

/-- One step of the whole component: dispatch the stimulus to the matching
handler.  An approval keeps the handler's post-call state even when the
handler reports an error (the Rust method mutates `self` in place); a timer
can fire only if it was armed, and firing consumes it. -/
def stepOp (cfg : BlacklistReputationsConfig) (s : SysState) : Op → SysState
  | .approve view now => { s with comp := (on_agreement_approved s.comp view now).2 }
  | .terminate id now =>
    match on_agreement_terminated cfg s.comp id now with
    | .ok (c, some t) => { comp := c, armed := s.armed ++ [t.agreement_id] }
    | .ok (c, none) => { s with comp := c }
    | .error _ => s
  | .agreementEvent id event =>
    match on_agreement_event s.comp id event with
    | .ok c => { s with comp := c }
    | .error _ => s
  | .fire id =>
    if id ∈ s.armed then
      { comp := fireDeadline s.comp id, armed := s.armed.erase id }
    else s

/-- The initial state: empty blacklist, empty table, no armed timer. -/
def initState : SysState := ⟨⟨[], []⟩, []⟩

/-- Run a sequence of stimuli from the initial state. -/
def runTrace (cfg : BlacklistReputationsConfig) (ops : List Op) : SysState :=
  ops.foldl (stepOp cfg) initState

/-- Trace invariant: every tracked agreement stems from an approval for its id
in the trace, and every armed timer stems from an approval followed by a
termination for its id. -/
def TraceInv (ops : List Op) (s : SysState) : Prop :=
  (∀ p ∈ s.comp.agreements, ∃ view now, view.id = p.1 ∧ Op.approve view now ∈ ops) ∧
  (∀ id ∈ s.armed, ∃ view n1 n2, view.id = id ∧
    List.Sublist [Op.approve view n1, Op.terminate id n2] ops)

theorem mem_of_mem_eraseKey {l : List (String × TrackedAgreement)} {k : String}
    {p : String × TrackedAgreement} (hp : p ∈ eraseKey l k) : p ∈ l :=
  List.mem_of_mem_filter hp

theorem traceInv_weaken {ops : List Op} {op : Op} {s : SysState}
    (h : TraceInv ops s) : TraceInv (ops ++ [op]) s := by
  obtain ⟨h1, h2⟩ := h
  refine ⟨fun p hp => ?_, fun id hid => ?_⟩
  · obtain ⟨view, now, hv, hm⟩ := h1 p hp
    exact ⟨view, now, hv, List.mem_append.mpr (Or.inl hm)⟩
  · obtain ⟨view, n1, n2, hv, hs⟩ := h2 id hid
    exact ⟨view, n1, n2, hv, hs.trans (List.sublist_append_left ops [op])⟩

theorem traceInv_of_subsets {ops : List Op} {s t : SysState} (h : TraceInv ops s)
    (hA : ∀ p ∈ t.comp.agreements, p ∈ s.comp.agreements)
    (hT : ∀ id ∈ t.armed, id ∈ s.armed) : TraceInv ops t :=
  ⟨fun p hp => h.1 p (hA p hp), fun id hid => h.2 id (hT id hid)⟩

theorem traceInv_step (cfg : BlacklistReputationsConfig) {ops : List Op} {s : SysState}
    (h : TraceInv ops s) (op : Op) : TraceInv (ops ++ [op]) (stepOp cfg s op) := by
  cases op with
  | approve view now =>
    cases hr : view.requestor with
    | none =>
      have hstep : stepOp cfg s (.approve view now) = s := by
        simp [stepOp, on_agreement_approved, AgreementView.requestor_id, hr]
      rw [hstep]
      exact traceInv_weaken h
    | some node =>
      have hstep : stepOp cfg s (.approve view now) =
          { s with comp := ⟨s.comp.blacklist, insertA s.comp.agreements view.id
              ⟨view.id, node, view.approved_date.getD now, none⟩⟩ } := by
        simp [stepOp, on_agreement_approved, AgreementView.requestor_id, hr]
      rw [hstep]
      obtain ⟨h1, h2⟩ := h
      refine ⟨fun p hp => ?_, fun id hid => ?_⟩
      · simp only [insertA] at hp
        rcases List.mem_cons.mp hp with hph | hpt
        · subst hph
          exact ⟨view, now, rfl, List.mem_append.mpr (Or.inr (List.mem_singleton.mpr rfl))⟩
        · obtain ⟨v, n, hv, hm⟩ := h1 p (mem_of_mem_eraseKey hpt)
          exact ⟨v, n, hv, List.mem_append.mpr (Or.inl hm)⟩
      · obtain ⟨v, n1, n2, hv, hs⟩ := h2 id hid
        exact ⟨v, n1, n2, hv, hs.trans (List.sublist_append_left ops _)⟩
  | terminate id now =>
    cases hl : lookupA s.comp.agreements id with
    | none =>
      have hstep : stepOp cfg s (.terminate id now) = s := by
        simp [stepOp, on_agreement_terminated, hl]
      rw [hstep]
      exact traceInv_weaken h
    | some record =>
      have hstep : stepOp cfg s (.terminate id now) =
          { comp := ⟨s.comp.blacklist, insertA s.comp.agreements id
              { record with terminated := some now }⟩,
            armed := s.armed ++ [id] } := by
        simp [stepOp, on_agreement_terminated, hl]
      rw [hstep]
      obtain ⟨h1, h2⟩ := h
      have happrove : ∃ v n, v.id = id ∧ Op.approve v n ∈ ops := by
        obtain ⟨v, n, hv, hm⟩ := h1 (id, record) (lookupA_some_mem hl)
        exact ⟨v, n, hv, hm⟩
      refine ⟨fun p hp => ?_, fun id' hid' => ?_⟩
      · simp only [insertA] at hp
        rcases List.mem_cons.mp hp with hph | hpt
        · obtain ⟨v, n, hv, hm⟩ := happrove
          subst hph
          exact ⟨v, n, hv, List.mem_append.mpr (Or.inl hm)⟩
        · obtain ⟨v, n, hv, hm⟩ := h1 p (mem_of_mem_eraseKey hpt)
          exact ⟨v, n, hv, List.mem_append.mpr (Or.inl hm)⟩
      · rcases List.mem_append.mp hid' with hold | hnew
        · obtain ⟨v, n1, n2, hv, hs⟩ := h2 id' hold
          exact ⟨v, n1, n2, hv, hs.trans (List.sublist_append_left ops _)⟩
        · have heq : id' = id := List.mem_singleton.mp hnew
          subst heq
          obtain ⟨v, n, hv, hm⟩ := happrove
          refine ⟨v, n, now, hv, ?_⟩
          exact (List.singleton_sublist.mpr hm).append (List.Sublist.refl _)
  | agreementEvent id event =>
    refine traceInv_weaken (traceInv_of_subsets h ?_ ?_)
    · intro p hp
      cases event with
      | invoicePaid =>
        cases hl : lookupA s.comp.agreements id with
        | none => simpa [stepOp, on_agreement_event, hl] using hp
        | some r =>
          simp only [stepOp, on_agreement_event, hl] at hp
          exact mem_of_mem_eraseKey hp
      | invoiceRejected =>
        cases hl : lookupA s.comp.agreements id with
        | none => simpa [stepOp, on_agreement_event, hl] using hp
        | some r =>
          simp only [stepOp, on_agreement_event, hl] at hp
          exact mem_of_mem_eraseKey hp
      | other => simpa [stepOp, on_agreement_event] using hp
    · intro id' hid'
      cases event with
      | invoicePaid =>
        cases hl : lookupA s.comp.agreements id with
        | none => simpa [stepOp, on_agreement_event, hl] using hid'
        | some r => simpa [stepOp, on_agreement_event, hl] using hid'
      | invoiceRejected =>
        cases hl : lookupA s.comp.agreements id with
        | none => simpa [stepOp, on_agreement_event, hl] using hid'
        | some r => simpa [stepOp, on_agreement_event, hl] using hid'
      | other => simpa [stepOp, on_agreement_event] using hid'
  | fire id =>
    by_cases hm : id ∈ s.armed
    · have hstep : stepOp cfg s (.fire id) =
          { comp := fireDeadline s.comp id, armed := s.armed.erase id } := by
        simp [stepOp, hm]
      rw [hstep]
      refine traceInv_weaken (traceInv_of_subsets h ?_ ?_)
      · intro p hp
        cases hl : lookupA s.comp.agreements id with
        | none => simpa [fireDeadline, hl] using hp
        | some r =>
          simp only [fireDeadline, hl] at hp
          exact mem_of_mem_eraseKey hp
      · intro id' hid'
        exact List.mem_of_mem_erase hid'
    · have hstep : stepOp cfg s (.fire id) = s := by
        simp [stepOp, hm]
      rw [hstep]
      exact traceInv_weaken h

theorem traceInv_runTrace (cfg : BlacklistReputationsConfig) (ops : List Op) :
    TraceInv ops (runTrace cfg ops) := by
  induction ops using List.reverseRecOn with
  | nil =>
    exact ⟨fun p hp => absurd hp (List.not_mem_nil p),
           fun id hid => absurd hid (List.not_mem_nil id)⟩
  | append_singleton ops op ih =>
    have hrun : runTrace cfg (ops ++ [op]) = stepOp cfg (runTrace cfg ops) op := by
      simp [runTrace, List.foldl_append]
    rw [hrun]
    exact traceInv_step cfg ih op

/-- Counterexample to C5 as stated: from the empty state, an approval followed
by an `InvoiceRejected` settlement event blacklists node 7 on account of
agreement "A1" although `on_agreement_terminated` was never called — the trace
holds no termination at all. -/
theorem blacklist_without_termination :
    7 ∈ (runTrace ⟨15⟩ [Op.approve ⟨"A1", some 7, none⟩ 0,
        Op.agreementEvent "A1" .invoiceRejected]).comp.blacklist ∧
    ∀ op ∈ [Op.approve (⟨"A1", some 7, none⟩ : AgreementView) 0,
        Op.agreementEvent "A1" .invoiceRejected],
      ∀ id now, op ≠ Op.terminate id now := by
  constructor
  · decide
  · intro op hop id now
    rcases List.mem_cons.mp hop with h | h
    · subst h
      intro hcon
      cases hcon
    · rcases List.mem_cons.mp h with h' | h'
      · subst h'
        intro hcon
        cases hcon
      · exact absurd h' (List.not_mem_nil op)

/-- C5 (amended): starting from the empty state, a blacklist addition caused
by a fired deadline for an agreement id requires an approval for that id
followed later in the trace by a termination for it; a blacklist addition
caused by an `InvoiceRejected` settlement event requires an approval for that
id earlier in the trace — termination is not required on that path. -/
theorem blacklist_addition_requires_approval (cfg : BlacklistReputationsConfig)
    (ops : List Op) (agreement_id : String) :
    ((stepOp cfg (runTrace cfg ops) (Op.fire agreement_id)).comp.blacklist ≠
        (runTrace cfg ops).comp.blacklist →
      ∃ view n1 n2, view.id = agreement_id ∧
        List.Sublist [Op.approve view n1, Op.terminate agreement_id n2] ops) ∧
    ((stepOp cfg (runTrace cfg ops)
          (Op.agreementEvent agreement_id .invoiceRejected)).comp.blacklist ≠
        (runTrace cfg ops).comp.blacklist →
      ∃ view n1, view.id = agreement_id ∧ Op.approve view n1 ∈ ops) := by
  have hInv := traceInv_runTrace cfg ops
  constructor
  · intro hne
    by_cases hm : agreement_id ∈ (runTrace cfg ops).armed
    · exact hInv.2 agreement_id hm
    · exfalso
      apply hne
      simp [stepOp, hm]
  · intro hne
    cases hl : lookupA (runTrace cfg ops).comp.agreements agreement_id with
    | none =>
      exfalso
      apply hne
      simp [stepOp, on_agreement_event, hl]
    | some r =>
      obtain ⟨v, n, hv, hmem⟩ := hInv.1 (agreement_id, r) (lookupA_some_mem hl)
      exact ⟨v, n, hv, hmem⟩

/-- Witness for the amended C5: a trace that approves and then terminates
agreement "a" makes the fired deadline change the blacklist, so the sublist of
the approval followed by the termination exists. -/
theorem blacklist_addition_requires_approval_witness :
    ∃ view n1 n2, view.id = "a" ∧
      List.Sublist [Op.approve view n1, Op.terminate "a" n2]
        [Op.approve ⟨"a", some 5, none⟩ 0, Op.terminate "a" 1] :=
  (blacklist_addition_requires_approval ⟨15⟩
      [Op.approve ⟨"a", some 5, none⟩ 0, Op.terminate "a" 1] "a").1 (by decide)

/-- The constructed plugin (`BlacklistReputation`): its configuration and the
shared state.  The tokio runtime, the logger and the working-directory path
are environment resources with no bearing on the claims. -/
structure BlacklistReputation where
  config : BlacklistReputationsConfig
  state : BlacklistState
deriving DecidableEq

/-- Outcome of reading the snapshot file `blacklist.yaml`, at the value level:
either the read fails, or it yields a content which the yaml library parses to
a list of node ids or fails to parse.  Serialization and parsing by the
library are modelled as the identity on the value. -/
abbrev SnapshotRead := Except Unit (Except Unit (List NodeId))

/-- `BlacklistReputation::new` after the configuration value has been read:
a configuration parse error propagates; a failed snapshot read falls back to
the empty blacklist, while a successful read whose content fails to parse
propagates the parse error; the agreement table starts empty. -/
def BlacklistReputation.new (configRes : Except Unit BlacklistReputationsConfig)
    (fileRead : SnapshotRead) : Except Unit BlacklistReputation := do
  let config ← configRes
  let blacklist ← match fileRead with
    | .ok parsed => parsed
    | .error _ => .ok []
  return { config := config, state := { blacklist := blacklist, agreements := [] } }

/-- `Drop for BlacklistReputation`: drain the blacklist and write it to the
snapshot file.  The model returns the written snapshot content (serialization
modelled as the identity on the value) together with the drained plugin. -/
def BlacklistReputation.drop_save (m : BlacklistReputation) :
    List NodeId × BlacklistReputation :=
  (m.state.blacklist, { m with state := { m.state with blacklist := [] } })

/-- C7: with a well-formed configuration, a snapshot file that is absent or
unreadable yields a successfully constructed plugin whose blacklist is empty —
the read failure is never surfaced as a construction error. -/
theorem new_recovers_from_read_failure (cfg : BlacklistReputationsConfig) :
    BlacklistReputation.new (.ok cfg) (.error ()) =
      .ok { config := cfg, state := { blacklist := [], agreements := [] } } := rfl

/-- C8: saving a blacklist at teardown and loading the written snapshot in a
fresh instance succeeds and reproduces the same membership set. -/
theorem snapshot_roundtrip (m : BlacklistReputation) (cfg : BlacklistReputationsConfig) :
    ∃ m' : BlacklistReputation,
      BlacklistReputation.new (.ok cfg) (.ok (.ok m.drop_save.1)) = .ok m' ∧
      ∀ n : NodeId, n ∈ m'.state.blacklist ↔ n ∈ m.state.blacklist :=
  ⟨⟨cfg, ⟨m.state.blacklist, []⟩⟩, rfl, fun _ => Iff.rfl⟩
